import Mathlib

/-
Shallow embedding of `src/htmlify.py`: a tool that renders a list of input
files into a single self-contained HTML document, embedding each file's
bytes base64-encoded in a data URI.  Bytes are modelled as `Nat` (values
below 256), file contents as `List Nat`, the filesystem as a partial map
from path strings to contents (`none` = unreadable), and Python exceptions
as `Option` propagation.
-/

/-- ASCII lowercasing of one character, as Python `str.lower` acts on the
ASCII extension strings relevant here. -/
def lowerChar (c : Char) : Char :=
  if 65 ≤ c.toNat ∧ c.toNat ≤ 90 then Char.ofNat (c.toNat + 32) else c

/-- `s.lower()` on a string. -/
def lowerStr (s : String) : String := String.mk (s.data.map lowerChar)

/-- The final path component, as `pathlib.PurePath.name` (empty components
from repeated or trailing separators dropped). -/
def pathName (f : String) : List Char :=
  ((f.data.splitOn '/').filter (fun c => c ≠ [])).getLastD []

/-- Index of the first occurrence of `'.'` in a character list. -/
def firstDotIdx : List Char → Option Nat
  | [] => none
  | c :: cs => if c = '.' then some 0 else (firstDotIdx cs).map (fun n => n + 1)

/-- `pathlib.PurePath.suffix`: the part of the name from the last dot on,
empty when the last dot is absent, leads the name, or ends it. -/
def suffixOf (f : String) : List Char :=
  let name := pathName f
  match firstDotIdx name.reverse with
  | none => []
  | some r =>
    let i := name.length - 1 - r
    if 0 < i ∧ i < name.length - 1 then name.drop i else []

/-- `path.suffix.replace(".", "").lower()`, the extension string computed by
the handlers and by `main`. -/
def extOf (f : String) : String :=
  String.mk (((suffixOf f).filter (fun c => c ≠ '.')).map lowerChar)

/-- The two handler classes of the program. -/
inductive HandlerT where
  | image : HandlerT
  | glb : HandlerT
deriving DecidableEq

/-- `handler.__registry__.name`: the registry name autoregistry derives from
the class name with the `Handler` suffix stripped and lowercased. -/
def handlerName : HandlerT → String
  | HandlerT.image => "image"
  | HandlerT.glb => "glb"

/-- The extension-to-handler registry autoregistry builds: each class is
registered under its derived name and under each declared alias, keys
lowercased. -/
def Handler.registry : List (String × HandlerT) :=
  [("image", HandlerT.image), ("jpg", HandlerT.image), ("jpeg", HandlerT.image),
   ("png", HandlerT.image), ("gif", HandlerT.image),
   ("glb", HandlerT.glb), ("gltf", HandlerT.glb)]

/-- `Handler[e]` as an `Option`: autoregistry lookup, case-insensitive
(the query key is lowercased before comparison with the stored keys). -/
def Handler.lookup (e : String) : Option HandlerT :=
  (Handler.registry.find? (fun p => p.1 = lowerStr e)).map (fun p => p.2)

/-- The base64 alphabet in index order. -/
def base64Chars : List Char :=
  "ABCDEFGHIJKLMNOPQRSTUVWXYZabcdefghijklmnopqrstuvwxyz0123456789+/".data

/-- The character encoding a 6-bit group. -/
def b64chr (n : Nat) : Char := base64Chars.getD n 'A'

/-- The 6-bit group a base64 character encodes. -/
def b64val (c : Char) : Nat := base64Chars.indexOf c

/-- The base64 padding character. -/
def padChar : Char := '='

/-- `base64.b64encode`: standard base64 with padding, three bytes at a
time. -/
def b64encode : List Nat → List Char
  | [] => []
  | [b1] => [b64chr (b1 / 4), b64chr (b1 % 4 * 16), padChar, padChar]
  | [b1, b2] =>
      [b64chr (b1 / 4), b64chr (b1 % 4 * 16 + b2 / 16), b64chr (b2 % 16 * 4), padChar]
  | b1 :: b2 :: b3 :: rest =>
      b64chr (b1 / 4) :: b64chr (b1 % 4 * 16 + b2 / 16) ::
      b64chr (b2 % 16 * 4 + b3 / 64) :: b64chr (b3 % 64) :: b64encode rest

/-- `base64.b64decode` on well-formed input: four characters at a time, the
final quantum read according to its padding. -/
def b64decode : List Char → List Nat
  | c1 :: c2 :: c3 :: c4 :: rest =>
      match rest with
      | [] =>
          if c3 = padChar then [b64val c1 * 4 + b64val c2 / 16]
          else if c4 = padChar then
            [b64val c1 * 4 + b64val c2 / 16, b64val c2 % 16 * 16 + b64val c3 / 4]
          else
            [b64val c1 * 4 + b64val c2 / 16, b64val c2 % 16 * 16 + b64val c3 / 4,
             b64val c3 % 4 * 64 + b64val c4]
      | _ :: _ =>
          (b64val c1 * 4 + b64val c2 / 16) :: (b64val c2 % 16 * 16 + b64val c3 / 4) ::
          (b64val c3 % 4 * 64 + b64val c4) :: b64decode rest
  | _ => []

/-- The filesystem: path to file bytes, `none` when the file cannot be
opened or read (Python raises there). -/
def FS : Type := String → Option (List Nat)

/-- The string `base64.b64encode(contents).decode()` embedded in a
fragment. -/
def b64encodeStr (bs : List Nat) : String := String.mk (b64encode bs)

/-- `ImageHandler.htmlify`: read the file and wrap its base64 bytes in an
`img` element whose data URI names `image/<extension>`. -/
def ImageHandler.htmlify (fs : FS) (path : String) : Option String :=
  (fs path).map (fun bytes =>
    "<img src = 'data:image/" ++ extOf path ++ ";base64," ++ b64encodeStr bytes ++ "'/>")

/-- `GLBHandler.htmlify`: read the file and wrap its base64 bytes in a
`model-viewer` element, the sub-format chosen by the extension. -/
def GLBHandler.htmlify (fs : FS) (path : String) : Option String :=
  (fs path).map (fun bytes =>
    let format := if extOf path = "glb" then "gltf-binary" else "gltf-text"
    "\n                <model-viewer camera-controls src='data:model/" ++ format ++
    ";base64," ++ b64encodeStr bytes ++ "'>\n                </model-viewer>")

/-- Dispatch of `handler.htmlify(f)` over the two handler classes. -/
def htmlifyH : HandlerT → FS → String → Option String
  | HandlerT.image => ImageHandler.htmlify
  | HandlerT.glb => GLBHandler.htmlify

/-- The default `Handler.header` implementation, inherited by
`ImageHandler`. -/
def Handler.headerDefault : String := ""

/-- `GLBHandler.header`: the model-viewer script import followed by a
newline and the style block, exactly as the source's literals spell
them. -/
def GLBHandler.header : String :=
  "\n            <script type='module' src='https://ajax.googleapis.com/ajax/libs/model-viewer/3.3.0/model-viewer.min.js'>\n            </script>\n        " ++
  "\n" ++
  "<style>\n                   model-viewer \x7b\n                     width: 512px;\n                     height: 512px;\n                   \x7d\n                   </style>"

/-- Dispatch of `handler.header()` over the two handler classes. -/
def headerOf : HandlerT → String
  | HandlerT.image => Handler.headerDefault
  | HandlerT.glb => GLBHandler.header

/-- The mutable state of `main`'s loop: the `headers` dict (insertion
ordered), the `body` list, and the lines printed to standard output. -/
structure RunState where
  headers : List (String × String)
  body : List String
  diags : List String
deriving DecidableEq

/-- The state at the top of `main`: `headers = {}`, `body = []`, nothing
printed. -/
def initState : RunState := { headers := [], body := [], diags := [] }

/-- One iteration of `main`'s loop over `files`: skip-and-log on an
unregistered extension, otherwise record the handler's header on first
sight and append the labelled fragment; `none` when the read raises. -/
def stepFile (fs : FS) (st : RunState) (f : String) : Option RunState :=
  let ext := extOf f
  match Handler.lookup ext with
  | none =>
      some { st with
             diags := st.diags ++ ["No handler for " ++ f ++ " with extension " ++ ext] }
  | some h =>
      let name := handlerName h
      let st1 := if (st.headers.map Prod.fst).contains name then st
                 else { st with headers := st.headers ++ [(name, headerOf h)] }
      match htmlifyH h fs f with
      | none => none
      | some frag =>
          some { st1 with
                 body := st1.body ++ ["<h1> " ++ f ++ " </h1>", frag, "<hr>"] }

/-- `main`'s loop over the whole file list; `none` when any iteration
raises an I/O error. -/
def runFiles (fs : FS) : RunState → List String → Option RunState
  | st, [] => some st
  | st, f :: rest =>
      match stepFile fs st f with
      | none => none
      | some st2 => runFiles fs st2 rest

/-- The document `main` writes to `outfile`: head with the accumulated
headers, body lines each followed by a newline, trailing separator and
timestamp footer. -/
def renderDoc (st : RunState) (ts : String) : String :=
  "<html><head>" ++ String.join (st.headers.map Prod.snd) ++ "</head><body>" ++
  String.join (st.body.map (fun l => l ++ "\n")) ++ "<hr>" ++
  ("Generated at " ++ ts) ++ "</body></html>"

/-- `main(outfile, files)` run at timestamp `ts`: the printed diagnostics
and the document written to `outfile`, or `none` when an I/O error
terminates the run before anything is written. -/
def mainRun (fs : FS) (files : List String) (ts : String) : Option (List String × String) :=
  (runFiles fs initState files).map (fun st => (st.diags, renderDoc st ts))

/-- Every encoding character is in the base64 alphabet (an out-of-range
index yields the default, itself an alphabet character). -/
theorem b64chr_mem (n : Nat) : b64chr n ∈ base64Chars := by
  unfold b64chr
  rcases Nat.lt_or_ge n base64Chars.length with h | h
  · rw [List.getD_eq_getElem?_getD, List.getElem?_eq_getElem h]
    exact List.getElem_mem h
  · rw [List.getD_eq_getElem?_getD, List.getElem?_eq_none (by omega)]
    decide

/-- The alphabet holds no padding character. -/
theorem b64chr_ne_pad (n : Nat) : b64chr n ≠ padChar := by
  intro heq
  have h := b64chr_mem n
  rw [heq] at h
  revert h
  decide

/-- Decoding inverts encoding on each 6-bit group. -/
theorem b64val_b64chr_fin : ∀ n : Fin 64, b64val (b64chr n.1) = n.1 := by decide

/-- Decoding inverts encoding on each 6-bit group, `Nat` form. -/
theorem b64val_b64chr (n : Nat) (h : n < 64) : b64val (b64chr n) = n :=
  b64val_b64chr_fin ⟨n, h⟩

/-- Encoding a nonempty byte list starts with some character. -/
theorem b64encode_cons_shape : ∀ (l : List Nat), l ≠ [] →
    ∃ e es, b64encode l = e :: es
  | [], hl => absurd rfl hl
  | [_], _ => ⟨_, _, rfl⟩
  | [_, _], _ => ⟨_, _, rfl⟩
  | _ :: _ :: _ :: _, _ => ⟨_, _, rfl⟩

/-- Round trip: decoding the encoding of a byte list gives it back. -/
theorem b64_roundtrip : ∀ (bs : List Nat), (∀ b ∈ bs, b < 256) →
    b64decode (b64encode bs) = bs
  | [], _ => rfl
  | [b1], h => by
      have hb1 : b1 < 256 := h b1 (by simp)
      simp only [b64encode, b64decode]
      rw [b64val_b64chr (b1 / 4) (by omega), b64val_b64chr (b1 % 4 * 16) (by omega)]
      simp only [if_true]
      congr 1
      omega
  | [b1, b2], h => by
      have hb1 : b1 < 256 := h b1 (by simp)
      have hb2 : b2 < 256 := h b2 (by simp)
      simp only [b64encode, b64decode]
      rw [if_neg (b64chr_ne_pad (b2 % 16 * 4))]
      simp only [if_true]
      rw [b64val_b64chr (b1 / 4) (by omega), b64val_b64chr (b1 % 4 * 16 + b2 / 16) (by omega),
          b64val_b64chr (b2 % 16 * 4) (by omega)]
      congr 1
      · omega
      congr 1
      omega
  | [b1, b2, b3], h => by
      have hb1 : b1 < 256 := h b1 (by simp)
      have hb2 : b2 < 256 := h b2 (by simp)
      have hb3 : b3 < 256 := h b3 (by simp)
      simp only [b64encode, b64decode]
      rw [if_neg (b64chr_ne_pad (b2 % 16 * 4 + b3 / 64)),
          if_neg (b64chr_ne_pad (b3 % 64))]
      rw [b64val_b64chr (b1 / 4) (by omega),
          b64val_b64chr (b1 % 4 * 16 + b2 / 16) (by omega),
          b64val_b64chr (b2 % 16 * 4 + b3 / 64) (by omega),
          b64val_b64chr (b3 % 64) (by omega)]
      congr 1
      · omega
      congr 1
      · omega
      congr 1
      omega
  | b1 :: b2 :: b3 :: r :: rs, h => by
      have hb1 : b1 < 256 := h b1 (by simp)
      have hb2 : b2 < 256 := h b2 (by simp)
      have hb3 : b3 < 256 := h b3 (by simp)
      have ih := b64_roundtrip (r :: rs) (fun b hb => h b (by simp [hb]))
      obtain ⟨e, es, hform⟩ := b64encode_cons_shape (r :: rs) (by simp)
      simp only [b64encode]
      rw [hform]
      simp only [b64decode]
      rw [← hform, ih]
      rw [b64val_b64chr (b1 / 4) (by omega),
          b64val_b64chr (b1 % 4 * 16 + b2 / 16) (by omega),
          b64val_b64chr (b2 % 16 * 4 + b3 / 64) (by omega),
          b64val_b64chr (b3 % 64) (by omega)]
      congr 1
      · omega
      congr 1
      · omega
      congr 1
      omega

/-- `Char.toNat` inverts `Char.ofNat` on the basic plane. -/
theorem charOfNat_toNat (n : Nat) (h : n < 55296) : (Char.ofNat n).toNat = n := by
  have hv : n.isValidChar := Or.inl h
  simp [Char.ofNat, hv, Char.ofNatAux, Char.toNat, UInt32.toNat, UInt32.ofNat']

/-- Lowercasing a character twice is lowercasing it once. -/
theorem lowerChar_idem (c : Char) : lowerChar (lowerChar c) = lowerChar c := by
  by_cases h : 65 ≤ c.toNat ∧ c.toNat ≤ 90
  · have h1 : lowerChar c = Char.ofNat (c.toNat + 32) := by unfold lowerChar; rw [if_pos h]
    have ht : (Char.ofNat (c.toNat + 32)).toNat = c.toNat + 32 :=
      charOfNat_toNat _ (by omega)
    have hno : ¬(65 ≤ (Char.ofNat (c.toNat + 32)).toNat ∧
        (Char.ofNat (c.toNat + 32)).toNat ≤ 90) := by rw [ht]; omega
    rw [h1]
    unfold lowerChar
    rw [if_neg hno]
  · have h1 : lowerChar c = c := by unfold lowerChar; rw [if_neg h]
    rw [h1, h1]

/-- Lowercasing a character list twice is lowercasing it once. -/
theorem map_lowerChar_idem : ∀ l : List Char, (l.map lowerChar).map lowerChar = l.map lowerChar
  | [] => rfl
  | c :: cs => by simp [lowerChar_idem, map_lowerChar_idem cs]

/-- The extension string `main` and the handlers compute is already
lowercase. -/
theorem lowerStr_extOf (f : String) : lowerStr (extOf f) = extOf f := by
  simp only [extOf, lowerStr]
  exact congrArg String.mk (map_lowerChar_idem _)

/-- A successful registry lookup resolving to the image handler pins the
lowercased key to one of its registration keys. -/
theorem lookup_image_cases (e : String) (h : Handler.lookup e = some HandlerT.image) :
    lowerStr e = "image" ∨ lowerStr e = "jpg" ∨ lowerStr e = "jpeg" ∨
    lowerStr e = "png" ∨ lowerStr e = "gif" := by
  simp only [Handler.lookup, Handler.registry, List.find?] at h
  by_cases h1 : "image" = lowerStr e
  · exact Or.inl h1.symm
  by_cases h2 : "jpg" = lowerStr e
  · exact Or.inr (Or.inl h2.symm)
  by_cases h3 : "jpeg" = lowerStr e
  · exact Or.inr (Or.inr (Or.inl h3.symm))
  by_cases h4 : "png" = lowerStr e
  · exact Or.inr (Or.inr (Or.inr (Or.inl h4.symm)))
  by_cases h5 : "gif" = lowerStr e
  · exact Or.inr (Or.inr (Or.inr (Or.inr h5.symm)))
  exfalso
  by_cases h6 : "glb" = lowerStr e
  · simp [h1, h2, h3, h4, h5, h6] at h
  by_cases h7 : "gltf" = lowerStr e
  · simp [h1, h2, h3, h4, h5, h6, h7] at h
  simp [h1, h2, h3, h4, h5, h6, h7] at h

/-- A successful registry lookup resolving to the model handler pins the
lowercased key to one of its registration keys. -/
theorem lookup_glb_cases (e : String) (h : Handler.lookup e = some HandlerT.glb) :
    lowerStr e = "glb" ∨ lowerStr e = "gltf" := by
  simp only [Handler.lookup, Handler.registry, List.find?] at h
  by_cases h1 : "image" = lowerStr e
  · simp [h1.symm] at h
  by_cases h2 : "jpg" = lowerStr e
  · simp [h1, h2.symm] at h
  by_cases h3 : "jpeg" = lowerStr e
  · simp [h1, h2, h3.symm] at h
  by_cases h4 : "png" = lowerStr e
  · simp [h1, h2, h3, h4.symm] at h
  by_cases h5 : "gif" = lowerStr e
  · simp [h1, h2, h3, h4, h5.symm] at h
  by_cases h6 : "glb" = lowerStr e
  · exact Or.inl h6.symm
  by_cases h7 : "gltf" = lowerStr e
  · exact Or.inr h7.symm
  exfalso
  simp [h1, h2, h3, h4, h5, h6, h7] at h

/-- The `base64,` marker that precedes the embedded data in both fragment
shapes. -/
def b64Marker : List Char := "base64,".data

/-- Does `pat` match the front of `l`? -/
def matchesAt (pat : List Char) (l : List Char) : Bool :=
  match pat with
  | [] => true
  | m :: ms =>
      match l with
      | [] => false
      | c :: cs => m == c && matchesAt ms cs

/-- The characters after the first occurrence of the `base64,` marker. -/
def afterMarker : List Char → List Char
  | [] => []
  | c :: cs =>
      if matchesAt b64Marker (c :: cs) then (c :: cs).drop b64Marker.length
      else afterMarker cs

/-- The characters before the first single quote. -/
def upToQuote : List Char → List Char
  | [] => []
  | c :: cs => if c = '\'' then [] else c :: upToQuote cs

/-- The base64 payload of a rendered fragment: the characters between the
`base64,` marker of its data URI and the quote closing the `src`
attribute. -/
def embeddedData (frag : String) : List Char := upToQuote (afterMarker frag.data)

/-- Unfolding `String.mk`. -/
theorem mk_data_eq (l : List Char) : (String.mk l).data = l := rfl

/-- Every character of an encoding is an alphabet character or padding. -/
theorem b64encode_mem : ∀ (bs : List Nat) (c : Char), c ∈ b64encode bs →
    c ∈ base64Chars ∨ c = padChar
  | [], c, hc => by simp [b64encode] at hc
  | [b1], c, hc => by
      simp only [b64encode, List.mem_cons, List.not_mem_nil, or_false] at hc
      rcases hc with h | h | h | h
      · exact Or.inl (h ▸ b64chr_mem _)
      · exact Or.inl (h ▸ b64chr_mem _)
      · exact Or.inr h
      · exact Or.inr h
  | [b1, b2], c, hc => by
      simp only [b64encode, List.mem_cons, List.not_mem_nil, or_false] at hc
      rcases hc with h | h | h | h
      · exact Or.inl (h ▸ b64chr_mem _)
      · exact Or.inl (h ▸ b64chr_mem _)
      · exact Or.inl (h ▸ b64chr_mem _)
      · exact Or.inr h
  | b1 :: b2 :: b3 :: rest, c, hc => by
      simp only [b64encode, List.mem_cons] at hc
      rcases hc with h | h | h | h | h
      · exact Or.inl (h ▸ b64chr_mem _)
      · exact Or.inl (h ▸ b64chr_mem _)
      · exact Or.inl (h ▸ b64chr_mem _)
      · exact Or.inl (h ▸ b64chr_mem _)
      · exact b64encode_mem rest c h

/-- No character of an encoding is a single quote, so the quote after the
payload closes the `src` attribute. -/
theorem b64encode_ne_quote (bs : List Nat) (c : Char) (hc : c ∈ b64encode bs) :
    c ≠ '\'' := by
  intro heq
  rcases b64encode_mem bs c hc with h | h <;> rw [heq] at h <;> revert h <;> decide

/-- Scanning to the first quote recovers a quote-free front segment. -/
theorem upToQuote_append : ∀ (d rest : List Char), (∀ c ∈ d, c ≠ '\'') →
    upToQuote (d ++ '\'' :: rest) = d
  | [], rest, _ => by simp [upToQuote]
  | c :: cs, rest, hd => by
      have hc : c ≠ '\'' := hd c (by simp)
      have ih := upToQuote_append cs rest (fun x hx => hd x (by simp [hx]))
      simp only [List.cons_append, upToQuote, if_neg hc]
      exact congrArg (fun l => c :: l) ih

/-- The marker scan lands on the data URI marker of an `image/image`
fragment. -/
theorem afterMarker_ext_image (t : List Char) :
    afterMarker ("<img src = 'data:image/".data ++ ("image".data ++ (";base64,".data ++ t))) = t := rfl

/-- The marker scan lands on the data URI marker of an `image/jpg`
fragment. -/
theorem afterMarker_ext_jpg (t : List Char) :
    afterMarker ("<img src = 'data:image/".data ++ ("jpg".data ++ (";base64,".data ++ t))) = t := rfl

/-- The marker scan lands on the data URI marker of an `image/jpeg`
fragment. -/
theorem afterMarker_ext_jpeg (t : List Char) :
    afterMarker ("<img src = 'data:image/".data ++ ("jpeg".data ++ (";base64,".data ++ t))) = t := rfl

/-- The marker scan lands on the data URI marker of an `image/png`
fragment. -/
theorem afterMarker_ext_png (t : List Char) :
    afterMarker ("<img src = 'data:image/".data ++ ("png".data ++ (";base64,".data ++ t))) = t := rfl

/-- The marker scan lands on the data URI marker of an `image/gif`
fragment. -/
theorem afterMarker_ext_gif (t : List Char) :
    afterMarker ("<img src = 'data:image/".data ++ ("gif".data ++ (";base64,".data ++ t))) = t := rfl

/-- The marker scan lands on the data URI marker of a binary glTF
fragment. -/
theorem afterMarker_glb_binary (t : List Char) :
    afterMarker ("\n                <model-viewer camera-controls src='data:model/".data ++ ("gltf-binary".data ++ (";base64,".data ++ t))) = t := rfl

/-- The marker scan lands on the data URI marker of a text glTF
fragment. -/
theorem afterMarker_glb_text (t : List Char) :
    afterMarker ("\n                <model-viewer camera-controls src='data:model/".data ++ ("gltf-text".data ++ (";base64,".data ++ t))) = t := rfl

/-- Extracting the payload of an image fragment recovers the encoding, for
each extension the image handler is registered under. -/
theorem embeddedData_image (e : String) (bs : List Nat)
    (he : e = "image" ∨ e = "jpg" ∨ e = "jpeg" ∨ e = "png" ∨ e = "gif") :
    embeddedData ("<img src = 'data:image/" ++ e ++ ";base64," ++ b64encodeStr bs ++ "'/>") =
      b64encode bs := by
  have hup : upToQuote (b64encode bs ++ "'/>".data) = b64encode bs :=
    upToQuote_append (b64encode bs) ['/', '>'] (fun c hc => b64encode_ne_quote bs c hc)
  unfold embeddedData
  simp only [String.data_append, b64encodeStr, mk_data_eq, List.append_assoc]
  rcases he with h | h | h | h | h <;> subst h
  · rw [afterMarker_ext_image]
    exact hup
  · rw [afterMarker_ext_jpg]
    exact hup
  · rw [afterMarker_ext_jpeg]
    exact hup
  · rw [afterMarker_ext_png]
    exact hup
  · rw [afterMarker_ext_gif]
    exact hup

/-- Extracting the payload of a model-viewer fragment recovers the
encoding, for either glTF sub-format tag. -/
theorem embeddedData_glb (fmt : String) (bs : List Nat)
    (hf : fmt = "gltf-binary" ∨ fmt = "gltf-text") :
    embeddedData ("\n                <model-viewer camera-controls src='data:model/" ++ fmt ++
        ";base64," ++ b64encodeStr bs ++ "'>\n                </model-viewer>") =
      b64encode bs := by
  have hup : upToQuote (b64encode bs ++ "'>\n                </model-viewer>".data) =
      b64encode bs :=
    upToQuote_append (b64encode bs) (">\n                </model-viewer>".data)
      (fun c hc => b64encode_ne_quote bs c hc)
  unfold embeddedData
  simp only [String.data_append, b64encodeStr, mk_data_eq, List.append_assoc]
  rcases hf with h | h <;> subst h
  · rw [afterMarker_glb_binary]
    exact hup
  · rw [afterMarker_glb_text]
    exact hup

/-- C1: for every input file handled by a registered handler, base64-decoding
the data embedded in the rendered HTML fragment yields exactly the original
bytes of that file as read from disk. -/
theorem embedded_data_roundtrip (fs : FS) (h : HandlerT) (f : String) (bytes : List Nat)
    (hlook : Handler.lookup (extOf f) = some h) (hfs : fs f = some bytes)
    (hbytes : ∀ b ∈ bytes, b < 256) :
    ∃ frag, htmlifyH h fs f = some frag ∧ b64decode (embeddedData frag) = bytes := by
  cases h with
  | image =>
      have hext := lookup_image_cases _ hlook
      rw [lowerStr_extOf] at hext
      refine ⟨"<img src = 'data:image/" ++ extOf f ++ ";base64," ++ b64encodeStr bytes ++ "'/>",
        ?_, ?_⟩
      · simp [htmlifyH, ImageHandler.htmlify, hfs]
      · rw [embeddedData_image (extOf f) bytes hext, b64_roundtrip bytes hbytes]
  | glb =>
      have hext := lookup_glb_cases _ hlook
      rw [lowerStr_extOf] at hext
      refine ⟨"\n                <model-viewer camera-controls src='data:model/" ++
        (if extOf f = "glb" then "gltf-binary" else "gltf-text") ++ ";base64," ++
        b64encodeStr bytes ++ "'>\n                </model-viewer>", ?_, ?_⟩
      · simp [htmlifyH, GLBHandler.htmlify, hfs]
      · have hf2 : (if extOf f = "glb" then "gltf-binary" else "gltf-text") = "gltf-binary" ∨
            (if extOf f = "glb" then "gltf-binary" else "gltf-text") = "gltf-text" := by
          rcases hext with h | h <;> simp [h]
        rw [embeddedData_glb _ bytes hf2, b64_roundtrip bytes hbytes]

/-- C1 witness: a one-pixel-like concrete file round-trips. -/
theorem embedded_data_roundtrip_witness :
    ∃ frag,
      htmlifyH HandlerT.image (fun s => if s = "a.png" then some [1, 2, 3] else none) "a.png" =
        some frag ∧
      b64decode (embeddedData frag) = [1, 2, 3] :=
  embedded_data_roundtrip (fun s => if s = "a.png" then some [1, 2, 3] else none)
    HandlerT.image "a.png" [1, 2, 3] (by decide) (by decide) (by decide)

/-- C2: every extension registered to a handler resolves to that handler
under lookup regardless of the letter case of the queried extension. -/
theorem lookup_case_insensitive (e : String) (h : HandlerT)
    (he : (e, h) ∈ Handler.registry) (s : String) (hs : lowerStr s = e) :
    Handler.lookup s = some h := by
  unfold Handler.lookup
  rw [hs]
  fin_cases he <;> decide

/-- C2 witness: `PNG`, `Png` and `png` all resolve to the image handler. -/
theorem lookup_case_insensitive_witness :
    ("png", HandlerT.image) ∈ Handler.registry ∧ lowerStr "PNG" = "png" ∧
    lowerStr "Png" = "png" ∧ Handler.lookup "PNG" = some HandlerT.image ∧
    Handler.lookup "Png" = some HandlerT.image ∧ Handler.lookup "png" = some HandlerT.image :=
  ⟨by decide, by decide, by decide,
   lookup_case_insensitive "png" HandlerT.image (by decide) "PNG" (by decide),
   lookup_case_insensitive "png" HandlerT.image (by decide) "Png" (by decide),
   lookup_case_insensitive "png" HandlerT.image (by decide) "png" (by decide)⟩

/-- The diagnostic line `main` prints for a file it skips. -/
def noHandlerMsg (f : String) : String :=
  "No handler for " ++ f ++ " with extension " ++ extOf f

/-- C3: a file whose extension is not in the registry is skipped with one
diagnostic line naming the file and extension, without raising, and the
loop continues over the remaining files from an otherwise unchanged
state. -/
theorem unsupported_skipped (fs : FS) (st : RunState) (f : String) (rest : List String)
    (hl : Handler.lookup (extOf f) = none) :
    stepFile fs st f = some { st with diags := st.diags ++ [noHandlerMsg f] } ∧
    runFiles fs st (f :: rest) =
      runFiles fs { st with diags := st.diags ++ [noHandlerMsg f] } rest := by
  constructor
  · simp [stepFile, hl, noHandlerMsg]
  · simp [runFiles, stepFile, hl, noHandlerMsg]

/-- C3 witness: skipping `c.xyz` appends its diagnostic and continues. -/
theorem unsupported_skipped_witness :
    Handler.lookup (extOf "c.xyz") = none ∧
    stepFile (fun _ => some []) initState "c.xyz" =
      some { initState with diags := [noHandlerMsg "c.xyz"] } ∧
    runFiles (fun _ => some []) initState ["c.xyz"] =
      runFiles (fun _ => some []) { initState with diags := [noHandlerMsg "c.xyz"] } [] :=
  ⟨by decide,
   (unsupported_skipped (fun _ => some []) initState "c.xyz" [] (by decide)).1,
   (unsupported_skipped (fun _ => some []) initState "c.xyz" [] (by decide)).2⟩

/-- C4: an image fragment is an `img` element whose source is
`data:image/<ext>;base64,<data>`, `<ext>` being the lowercased dot-stripped
suffix passed through with no normalization; in particular `jpg` stays
`jpg` and `jpeg` stays `jpeg`. -/
theorem image_fragment_shape (fs : FS) (f : String) (bytes : List Nat)
    (hfs : fs f = some bytes) (_hreg : Handler.lookup (extOf f) = some HandlerT.image) :
    ImageHandler.htmlify fs f =
      some ("<img src = 'data:image/" ++
        lowerStr (String.mk ((suffixOf f).filter (fun c => c ≠ '.'))) ++ ";base64," ++
        b64encodeStr bytes ++ "'/>") ∧
    extOf "a.jpg" = "jpg" ∧ extOf "A.JPEG" = "jpeg" := by
  refine ⟨?_, by decide, by decide⟩
  unfold ImageHandler.htmlify
  rw [hfs]
  rfl

/-- C4 witness: a concrete `.JPG` file renders as `image/jpg`. -/
theorem image_fragment_shape_witness :
    ImageHandler.htmlify (fun _ => some [255, 0]) "a.JPG" =
      some ("<img src = 'data:image/" ++
        lowerStr (String.mk ((suffixOf "a.JPG").filter (fun c => c ≠ '.'))) ++ ";base64," ++
        b64encodeStr [255, 0] ++ "'/>") ∧
    extOf "a.jpg" = "jpg" ∧ extOf "A.JPEG" = "jpeg" :=
  image_fragment_shape (fun _ => some [255, 0]) "a.JPG" [255, 0] (by decide) (by decide)

/-- C5: a model fragment is a `model-viewer` element with camera controls
whose source is `data:model/<format>;base64,<data>`, the format being the
binary glTF tag exactly when the lowercased extension is `glb` and the text
glTF tag otherwise. -/
theorem model_fragment_shape (fs : FS) (f : String) (bytes : List Nat)
    (hfs : fs f = some bytes) (_hreg : Handler.lookup (extOf f) = some HandlerT.glb) :
    GLBHandler.htmlify fs f =
      some ("\n                <model-viewer camera-controls src='data:model/" ++
        (if extOf f = "glb" then "gltf-binary" else "gltf-text") ++ ";base64," ++
        b64encodeStr bytes ++ "'>\n                </model-viewer>") := by
  simp [GLBHandler.htmlify, hfs]

/-- C5 witness: a concrete `.gltf` file renders with the text glTF tag. -/
theorem model_fragment_shape_witness :
    GLBHandler.htmlify (fun _ => some [0, 1]) "m.gltf" =
      some ("\n                <model-viewer camera-controls src='data:model/" ++
        (if extOf "m.gltf" = "glb" then "gltf-binary" else "gltf-text") ++ ";base64," ++
        b64encodeStr [0, 1] ++ "'>\n                </model-viewer>") :=
  model_fragment_shape (fun _ => some [0, 1]) "m.gltf" [0, 1] (by decide) (by decide)

/-- A supported but unreadable file aborts the loop wherever it sits in the
list. -/
theorem runFiles_none_of_io (fs : FS) (f : String) (h : HandlerT)
    (hsup : Handler.lookup (extOf f) = some h) (hio : fs f = none) :
    ∀ (files : List String), f ∈ files → ∀ st, runFiles fs st files = none
  | [], hmem => absurd hmem (List.not_mem_nil f)
  | g :: rest, hmem => by
      intro st
      rcases List.mem_cons.mp hmem with heq | hmem2
      · subst heq
        have hstep : stepFile fs st f = none := by
          cases h with
          | image => simp [stepFile, hsup, htmlifyH, ImageHandler.htmlify, hio]
          | glb => simp [stepFile, hsup, htmlifyH, GLBHandler.htmlify, hio]
        simp [runFiles, hstep]
      · cases hg : stepFile fs st g with
        | none => simp [runFiles, hg]
        | some st2 =>
            simp only [runFiles, hg]
            exact runFiles_none_of_io fs f h hsup hio rest hmem2 st2

/-- C7: when a listed file with a supported extension cannot be read, the
I/O error propagates, the run produces no result and no output document is
written. -/
theorem io_error_fatal (fs : FS) (files : List String) (ts : String) (f : String)
    (h : HandlerT) (hmem : f ∈ files) (hsup : Handler.lookup (extOf f) = some h)
    (hio : fs f = none) :
    mainRun fs files ts = none := by
  unfold mainRun
  rw [runFiles_none_of_io fs f h hsup hio files hmem initState]
  rfl

/-- C7 witness: one missing `.png` file kills a concrete run. -/
theorem io_error_fatal_witness :
    mainRun (fun _ => none) ["a.png"] "ts" = none :=
  io_error_fatal (fun _ => none) ["a.png"] "ts" "a.png" HandlerT.image
    (List.mem_singleton.mpr rfl) (by decide) rfl

/-- C9: `header()` takes no input and is pure: any sequence of calls
returns the one string the handler owns, and the default implementation,
the one the image handler inherits, is the empty string. -/
theorem header_pure :
    Handler.headerDefault = "" ∧ headerOf HandlerT.image = "" ∧
    ∀ (h : HandlerT) (calls : List Unit),
      calls.map (fun _ => headerOf h) = List.replicate calls.length (headerOf h) := by
  refine ⟨rfl, rfl, ?_⟩
  intro h calls
  induction calls with
  | nil => rfl
  | cons c cs ih => simp only [List.map_cons, List.length_cons, List.replicate_succ, ih]

/-- C10: a file name with no extension at all gets the empty extension,
which is unsupported: it is skipped with a diagnostic reporting the empty
extension, nothing is raised, and the loop continues. -/
theorem no_extension_skipped (fs : FS) (st : RunState) (f : String) (rest : List String)
    (hs : suffixOf f = []) :
    extOf f = "" ∧
    stepFile fs st f =
      some { st with diags := st.diags ++ ["No handler for " ++ f ++ " with extension "] } ∧
    runFiles fs st (f :: rest) =
      runFiles fs { st with diags := st.diags ++ ["No handler for " ++ f ++ " with extension "] }
        rest := by
  have hext : extOf f = "" := by unfold extOf; rw [hs]; rfl
  have hl : Handler.lookup "" = none := by decide
  refine ⟨hext, ?_, ?_⟩
  · simp [stepFile, hl, hext]
  · simp [runFiles, stepFile, hl, hext]

/-- C10 witness: `README` has the empty suffix and is skipped. -/
theorem no_extension_skipped_witness :
    extOf "README" = "" ∧
    stepFile (fun _ => some []) initState "README" =
      some { initState with diags := ["No handler for " ++ "README" ++ " with extension "] } ∧
    runFiles (fun _ => some []) initState ["README"] =
      runFiles (fun _ => some [])
        { initState with diags := ["No handler for " ++ "README" ++ " with extension "] } [] :=
  no_extension_skipped (fun _ => some []) initState "README" [] (by decide)

/-- The headers dict after `main`'s loop, as a fold over the file list:
one entry per handler name, recorded at its first supported file. -/
def headersAfter (hdrs : List (String × String)) : List String → List (String × String)
  | [] => hdrs
  | f :: rest =>
      match Handler.lookup (extOf f) with
      | none => headersAfter hdrs rest
      | some h =>
          if (hdrs.map Prod.fst).contains (handlerName h) then headersAfter hdrs rest
          else headersAfter (hdrs ++ [(handlerName h, headerOf h)]) rest

/-- The body lines of a successful run: for each supported file in input
order, its heading, its fragment and a separator. -/
def specBody (fs : FS) : List String → List String
  | [] => []
  | f :: rest =>
      match Handler.lookup (extOf f) with
      | none => specBody fs rest
      | some h =>
          ["<h1> " ++ f ++ " </h1>", (htmlifyH h fs f).getD "", "<hr>"] ++ specBody fs rest

/-- A successful loop leaves exactly the folded headers and the
concatenated body lines of its input, appended to what it started with. -/
theorem runFiles_some_shape : ∀ (files : List String) (fs : FS) (st st' : RunState),
    runFiles fs st files = some st' →
    st'.headers = headersAfter st.headers files ∧ st'.body = st.body ++ specBody fs files
  | [], fs, st, st', h => by
      simp only [runFiles, Option.some.injEq] at h
      subst h
      simp [headersAfter, specBody]
  | f :: rest, fs, st, st', h => by
      simp only [runFiles] at h
      cases hl : Handler.lookup (extOf f) with
      | none =>
          have hstep : stepFile fs st f =
              some { st with diags := st.diags ++ [noHandlerMsg f] } := by
            simp [stepFile, hl, noHandlerMsg]
          rw [hstep] at h
          have ih := runFiles_some_shape rest fs _ st' h
          simpa [headersAfter, specBody, hl] using ih
      | some ht =>
          cases hh : htmlifyH ht fs f with
          | none =>
              have hstep : stepFile fs st f = none := by
                simp [stepFile, hl, hh]
              rw [hstep] at h
              exact absurd h (by simp)
          | some frag =>
              cases hc : (st.headers.map Prod.fst).contains (handlerName ht) with
              | true =>
                  have hstep : stepFile fs st f =
                      some { st with
                             body := st.body ++ ["<h1> " ++ f ++ " </h1>", frag, "<hr>"] } := by
                    simp only [stepFile, hl, hh]
                    rw [if_pos hc]
                  rw [hstep] at h
                  have ih := runFiles_some_shape rest fs _ st' h
                  simp only [headersAfter, specBody, hl, hh, hc, if_true, Option.getD_some]
                  exact ⟨ih.1, by simpa [List.append_assoc] using ih.2⟩
              | false =>
                  have hstep : stepFile fs st f =
                      some { st with
                             headers := st.headers ++ [(handlerName ht, headerOf ht)],
                             body := st.body ++ ["<h1> " ++ f ++ " </h1>", frag, "<hr>"] } := by
                    simp only [stepFile, hl, hh]
                    rw [if_neg (fun hp => Bool.false_ne_true (hc ▸ hp))]
                  rw [hstep] at h
                  have ih := runFiles_some_shape rest fs _ st' h
                  simp only [headersAfter, specBody, hl, hh, hc, if_false, Option.getD_some]
                  exact ⟨ih.1, by simpa [List.append_assoc] using ih.2⟩

/-- The header fold never duplicates a handler name. -/
theorem headersAfter_keys_nodup : ∀ (files : List String) (hdrs : List (String × String)),
    (hdrs.map Prod.fst).Nodup → ((headersAfter hdrs files).map Prod.fst).Nodup
  | [], _, h => h
  | f :: rest, hdrs, h => by
      cases hl : Handler.lookup (extOf f) with
      | none =>
          simp only [headersAfter, hl]
          exact headersAfter_keys_nodup rest hdrs h
      | some ht =>
          cases hc : (hdrs.map Prod.fst).contains (handlerName ht) with
          | true =>
              simp only [headersAfter, hl]
              rw [if_pos hc]
              exact headersAfter_keys_nodup rest hdrs h
          | false =>
              simp only [headersAfter, hl]
              rw [if_neg (fun hp => Bool.false_ne_true (hc ▸ hp))]
              apply headersAfter_keys_nodup rest
              rw [List.map_append]
              refine List.Nodup.append h (List.nodup_singleton _) ?_
              intro a ha hb
              have hab : a = handlerName ht := by simpa using hb
              rw [hab] at ha
              have hmem : (hdrs.map Prod.fst).contains (handlerName ht) = true := by
                simpa using ha
              rw [hc] at hmem
              exact Bool.false_ne_true hmem

/-- When every file resolves to the one handler already recorded, the fold
adds nothing. -/
theorem headersAfter_single (h : HandlerT) : ∀ (files : List String),
    (∀ f ∈ files, Handler.lookup (extOf f) = some h) →
    headersAfter [(handlerName h, headerOf h)] files = [(handlerName h, headerOf h)]
  | [], _ => rfl
  | f :: rest, hall => by
      have hf := hall f (by simp)
      simp only [headersAfter, hf]
      rw [if_pos (by simp)]
      exact headersAfter_single h rest (fun g hg => hall g (by simp [hg]))

/-- C6: a successful run records at most one header per handler type, keyed
by handler name in first-seen order; when every input file resolves to one
handler, that handler's header is recorded exactly once. -/
theorem headers_dedup (fs : FS) (files : List String) (st' : RunState) (h : HandlerT)
    (hrun : runFiles fs initState files = some st') :
    st'.headers = headersAfter [] files ∧
    (st'.headers.map Prod.fst).Nodup ∧
    ((∀ f ∈ files, Handler.lookup (extOf f) = some h) → files ≠ [] →
      st'.headers = [(handlerName h, headerOf h)]) := by
  have hshape := (runFiles_some_shape files fs initState st' hrun).1
  refine ⟨hshape, ?_, ?_⟩
  · rw [hshape]
    exact headersAfter_keys_nodup files [] (by simp)
  · intro hall hne
    rw [hshape]
    cases files with
    | nil => exact absurd rfl hne
    | cons f rest =>
        have hf := hall f (by simp)
        simp only [headersAfter, hf]
        rw [if_neg (by simp [initState])]
        exact headersAfter_single h rest (fun g hg => hall g (by simp [hg]))

/-- C6 witness: two model files, one `glb` and one `gltf`, yield the
model-viewer header exactly once. -/
theorem headers_dedup_witness :
    ∃ st', runFiles (fun _ => some []) initState ["a.glb", "b.gltf"] = some st' ∧
      (st'.headers.map Prod.fst).Nodup ∧ st'.headers = [("glb", GLBHandler.header)] := by
  cases hrun : runFiles (fun _ => some []) initState ["a.glb", "b.gltf"] with
  | none => exact absurd hrun (by decide)
  | some st' =>
      have h := headers_dedup (fun _ => some []) ["a.glb", "b.gltf"] st' HandlerT.glb hrun
      exact ⟨st', rfl, h.2.1, h.2.2 (by decide) (by decide)⟩

/-- C8: a successful run writes exactly `<html><head>`, the deduplicated
headers, `</head><body>`, then per supported input file in order its
heading line, fragment and separator, then the trailing separator, the
timestamp footer and `</body></html>`; the empty input list yields the
bare document. -/
theorem document_structure (fs : FS) (files : List String) (ts : String)
    (d : List String) (doc : String)
    (hmain : mainRun fs files ts = some (d, doc)) :
    (∃ st', runFiles fs initState files = some st' ∧
      doc = "<html><head>" ++ String.join (st'.headers.map Prod.snd) ++ "</head><body>" ++
        String.join ((specBody fs files).map (fun l => l ++ "\n")) ++ "<hr>" ++
        ("Generated at " ++ ts) ++ "</body></html>") ∧
    (files = [] →
      doc = "<html><head></head><body><hr>" ++ ("Generated at " ++ ts) ++ "</body></html>") := by
  cases hrun : runFiles fs initState files with
  | none =>
      unfold mainRun at hmain
      rw [hrun] at hmain
      exact absurd hmain (by simp)
  | some st' =>
      have hmain2 : some ((st'.diags, renderDoc st' ts)) = some (d, doc) := by
        rw [← hmain]
        unfold mainRun
        rw [hrun]
        rfl
      have hpair := Option.some.inj hmain2
      have hdoc := congrArg Prod.snd hpair
      simp only at hdoc
      have hbody : st'.body = specBody fs files := by
        rw [(runFiles_some_shape files fs initState st' hrun).2]
        rfl
      constructor
      · refine ⟨st', rfl, ?_⟩
        rw [← hdoc]
        unfold renderDoc
        rw [hbody]
      · intro hnil
        subst hnil
        have hst : st' = initState := by
          have := hrun
          simp only [runFiles, Option.some.injEq] at this
          exact this.symm
        subst hst
        rw [← hdoc]
        rfl

/-- C8 witness: the empty input list yields the bare document. -/
theorem document_structure_witness :
    (∃ st', runFiles (fun _ => some []) initState ([] : List String) = some st' ∧
      "<html><head></head><body><hr>Generated at T</body></html>" =
        "<html><head>" ++ String.join (st'.headers.map Prod.snd) ++ "</head><body>" ++
        String.join ((specBody (fun _ => some []) ([] : List String)).map (fun l => l ++ "\n")) ++
        "<hr>" ++ ("Generated at " ++ "T") ++ "</body></html>") ∧
    (([] : List String) = [] →
      "<html><head></head><body><hr>Generated at T</body></html>" =
        "<html><head></head><body><hr>" ++ ("Generated at " ++ "T") ++ "</body></html>") :=
  document_structure (fun _ => some []) [] "T" []
    "<html><head></head><body><hr>Generated at T</body></html>" (by decide)
